import Mathlib

/-!
Shallow embedding of the TikZ preview engine (`src/components/tikzpreview.ts`):
positions, ranges, tracked picture fragments, the edit-application loop of
`onFileChange`, the re-anchoring routine `processModificationToTikzPicture`,
the preamble cache `checkPreamble`, and the fragment cache `getTikzEntry`.
Machine integers of the host language are modelled as `Int`; documents are
lists of lines; external collaborators (viewer client sets, the precompile
process outcome, clocks) are passed in as explicit parameters.
-/

namespace TikzPreview

/-- A (line, character) position, as in the host editor API. -/
structure Pos where
  line : Int
  character : Int
deriving DecidableEq

/-- Strict lexicographic order on positions: the meaning of `Position.isBefore`. -/
def Pos.lt (a b : Pos) : Prop :=
  a.line < b.line ∨ (a.line = b.line ∧ a.character < b.character)

instance (a b : Pos) : Decidable (Pos.lt a b) :=
  decidable_of_iff (a.line < b.line ∨ (a.line = b.line ∧ a.character < b.character))
    Iff.rfl

/-- Lexicographic order, non-strict: the meaning of `Position.isBeforeOrEqual`. -/
def Pos.le (a b : Pos) : Prop :=
  a.line < b.line ∨ (a.line = b.line ∧ a.character ≤ b.character)

instance (a b : Pos) : Decidable (Pos.le a b) :=
  decidable_of_iff (a.line < b.line ∨ (a.line = b.line ∧ a.character ≤ b.character))
    Iff.rfl

/-- `Position.isBefore` of the host API. -/
def Pos.isBefore (a b : Pos) : Bool := decide (Pos.lt a b)

/-- `Position.isAfter` of the host API. -/
def Pos.isAfter (a b : Pos) : Bool := decide (Pos.lt b a)

/-- `Position.translate(lineDelta, characterDelta)` of the host API. -/
def Pos.translate (a : Pos) (dl dc : Int) : Pos := ⟨a.line + dl, a.character + dc⟩

/-- A range over positions.  `stop` plays the role of the API's exclusive
`end` field (`end` is a reserved word here). -/
structure Rng where
  start : Pos
  stop : Pos
deriving DecidableEq

/-- The host `Range` constructor: if the start is not before or equal to the
end, the two positions are swapped. -/
def mkRng (a b : Pos) : Rng := if Pos.lt b a then ⟨b, a⟩ else ⟨a, b⟩

/-- `Range.isEqual`: start and end positions both equal. -/
def Rng.isEqual (a b : Rng) : Bool := a.start == b.start && a.stop == b.stop

/-- One atomic text edit: the replaced range and the replacement text. -/
structure Change where
  range : Rng
  text : String
deriving DecidableEq

/-- One tracked picture fragment (`IFileTikzPicture`). -/
structure TikzPic where
  range : Rng
  content : String
  tempFile : String
  lastChange : Int
deriving DecidableEq

/-- The per-document session state (`IFileTikzCollection`). -/
structure TikzCollection where
  texFileLocation : String
  tempDir : String
  tikzPictures : List TikzPic
  preamble : String
  lastChange : Int
deriving DecidableEq

/-- Text of line `n` of the live document.  Out-of-range lookups return the
empty string (the host API would throw; no claim exercises that regime). -/
def lineAt (doc : List String) (n : Int) : String :=
  if 0 ≤ n then doc.getD n.toNat "" else ""

/-- Substring of `s` between character indices `a` (inclusive) and `b`
(exclusive), clamped to the string as the host API clamps positions. -/
def strSlice (s : String) (a b : Int) : String :=
  String.mk ((s.data.take (max b 0).toNat).drop (max a 0).toNat)

/-- Suffix of `s` from character index `a` on, clamped. -/
def strDrop (s : String) (a : Int) : String :=
  String.mk (s.data.drop (max a 0).toNat)

/-- `document.getText(range)`: the text of the document covered by a
half-open range. -/
def getText (doc : List String) (r : Rng) : String :=
  if r.start.line = r.stop.line then
    strSlice (lineAt doc r.start.line) r.start.character r.stop.character
  else
    let mid := (List.range ((r.stop.line - r.start.line).toNat - 1)).map
      (fun k => lineAt doc (r.start.line + 1 + (k : Int)))
    String.intercalate "\n"
      ([strDrop (lineAt doc r.start.line) r.start.character] ++ mid ++
        [strSlice (lineAt doc r.stop.line) 0 r.stop.character])

def stripCommentsAux (d : Char) : List Char → List Char
  | [] => []
  | '\\' :: c :: rest => '\\' :: c :: stripCommentsAux d rest
  | c :: rest => if c = d then [] else c :: stripCommentsAux d rest

/-- Modelled from the spec: the comment-stripping helper `stripComments` lives
in the repository's utils module, which is not included under `src/`; the spec
describes it as removing a single-line comment, i.e. an unescaped
comment-start character through the end of the line. -/
def stripComments (s : String) (d : Char) : String :=
  String.mk (stripCommentsAux d s.data)

/-- The word-character class of the host regex engine (ASCII letters, digits
and underscore). -/
def isWordChar (c : Char) : Bool :=
  ('a' ≤ c && c ≤ 'z') || ('A' ≤ c && c ≤ 'Z') || ('0' ≤ c && c ≤ '9') || c = '_'

/-- Length of the longest run of word characters at the head of `s`. -/
def takeWordCount (s : List Char) : Nat := (s.takeWhile isWordChar).length

/-- Try `f n, f (n-1), ..., f 0` in order and return the first success:
the backtracking order of a greedy `\w*`. -/
def firstSome (f : Nat → Option Nat) : Nat → Option Nat
  | 0 => f 0
  | n + 1 =>
    match f (n + 1) with
    | some v => some v
    | none => firstSome f n

/-- Match the regex group `(?:tikzpicture|\w*tikz\w*)}` at the head of `s`,
returning the number of characters consumed.  The first alternative is tried
first; the second backtracks each greedy `\w*` from longest to shortest, as
the host regex engine does. -/
def matchGroupAt (s : List Char) : Option Nat :=
  if s.take 12 = "tikzpicture\x7d".data then some 12
  else
    firstSome (fun k =>
      if (s.drop k).take 4 = "tikz".data then
        firstSome (fun m =>
          if (((s.drop k).drop 4).drop m).take 1 = ['\x7d'] then
            some (k + 4 + m + 1)
          else none)
          (takeWordCount ((s.drop k).drop 4))
      else none)
      (takeWordCount s)

/-- Match `\begin{(?:tikzpicture|\w*tikz\w*)}` at the head of `s`. -/
def matchBeginAt (s : List Char) : Option Nat :=
  if s.take 7 = "\\begin\x7b".data then (matchGroupAt (s.drop 7)).map (· + 7)
  else none

/-- Match `\end{(?:tikzpicture|\w*tikz\w*)}` at the head of `s`. -/
def matchEndAt (s : List Char) : Option Nat :=
  if s.take 5 = "\\end\x7b".data then (matchGroupAt (s.drop 5)).map (· + 5)
  else none

def findAux (matchAt : List Char → Option Nat) : List Char → Nat → Option (Nat × Nat)
  | [], i => (matchAt []).map (fun L => (i, L))
  | c :: rest, i =>
    match matchAt (c :: rest) with
    | some L => some (i, L)
    | none => findAux matchAt rest (i + 1)

/-- Leftmost match of the begin-marker regex in a line: `(index, length)`. -/
def findBegin (s : String) : Option (Nat × Nat) := findAux matchBeginAt s.data 0

/-- Leftmost match of the end-marker regex in a line: `(index, length)`. -/
def findEnd (s : String) : Option (Nat × Nat) := findAux matchEndAt s.data 0

/-- The `do { ... lineAt(++lineNo) ... } while (!match && lineNo <= bound)`
search loop shared by both re-anchor searches: starting below `lineNo + 1`,
read successive lines and return the first line carrying a match, as
`(line, index, length)`.  The loop is written with explicit fuel; `fuelFor`
always supplies more fuel than the bounded loop can consume. -/
def markerSearch (find : String → Option (Nat × Nat)) (doc : List String)
    (bound : Int) : Nat → Int → Option (Int × Nat × Nat)
  | 0, _ => none
  | fuel + 1, lineNo =>
    match find (lineAt doc (lineNo + 1)) with
    | some (i, L) => some (lineNo + 1, i, L)
    | none =>
      if lineNo + 1 ≤ bound then markerSearch find doc bound fuel (lineNo + 1)
      else none

/-- Fuel sufficient for a `markerSearch` starting at `startNo` with bound
`bound`: the loop reads at most the lines `startNo + 1 .. bound + 1`. -/
def fuelFor (startNo bound : Int) : Nat := (bound + 1 - startNo).toNat + 1

/-- The `startLocation` block of `processModificationToTikzPicture` (source
lines 150-173): when the edit starts at or before the fragment's start, first
check whether the begin marker still sits on the fragment's recorded start
line (on the comment-stripped line text); if not, run the forward do-while
search from the edit's start line, matching each candidate line's raw text,
while the previous line read was at most the fragment's prior end line. -/
def startLocationOf (doc : List String) (tikzPicture : TikzPic) (change : Change) :
    Option Pos :=
  if change.range.start.line ≤ tikzPicture.range.start.line then
    match findBegin (stripComments (lineAt doc tikzPicture.range.start.line) '%') with
    | some (i, _) =>
      some (tikzPicture.range.start.translate 0
        ((i : Int) - tikzPicture.range.start.character))
    | none =>
      match markerSearch (fun s => findBegin s) doc tikzPicture.range.stop.line
          (fuelFor (change.range.start.line - 1) tikzPicture.range.stop.line)
          (change.range.start.line - 1) with
      | some (ln, i, _) => some ⟨ln, (i : Int)⟩
      | none => none
  else none

/-- The `endLocation` block of `processModificationToTikzPicture` (source
lines 175-188): when the edit ends at or after the fragment's prior end,
search forward from the fragment's start line for the closing marker on
comment-stripped line text; the new end is the match's index plus its
length. -/
def endLocationOf (doc : List String) (tikzPicture : TikzPic) (change : Change) :
    Option Pos :=
  if change.range.stop.line ≥ tikzPicture.range.stop.line then
    match markerSearch (fun s => findEnd (stripComments s '%')) doc
        change.range.stop.line
        (fuelFor (tikzPicture.range.start.line - 1) change.range.stop.line)
        (tikzPicture.range.start.line - 1) with
    | some (ln, i, L) => some ⟨ln, (i : Int) + (L : Int)⟩
    | none => none
  else none

/-- `TikzPictureView.processModificationToTikzPicture`: re-anchor a fragment
after an overlapping edit.  `doc` is the post-edit document.  A missed start
search keeps the prior start; a missed end search translates the prior end by
`lineDelta`; the content is re-read over the new range. -/
def processModificationToTikzPicture (doc : List String) (tikzPicture : TikzPic)
    (change : Change) (lineDelta : Int) : TikzPic :=
  let newRange := mkRng ((startLocationOf doc tikzPicture change).getD tikzPicture.range.start)
    ((endLocationOf doc tikzPicture change).getD
      (tikzPicture.range.stop.translate lineDelta 0))
  { tikzPicture with range := newRange, content := getText doc newRange }

/-- Number of newline characters in the replacement text:
`change.text.split('\n').length - 1`. -/
def countNewlines (s : String) : Nat := (s.data.filter (fun c => c == '\n')).length

/-- The per-change line delta computed at the top of the change loop. -/
def lineDeltaOf (change : Change) : Int :=
  (countNewlines change.text : Int) - (change.range.stop.line - change.range.start.line)

/-- Outcome of applying one change to one tracked fragment. -/
inductive ChangeOutcome
  | removed
  | kept (pic : TikzPic) (queued : Bool)
deriving DecidableEq

/-- The branch structure of the inner change loop of `onFileChange`
(lines 112-138 of the source), for a single fragment and a single change:
change strictly after the fragment, change strictly before it, structural
deletion, or modification via re-anchoring.  `queued` records whether the
fragment was pushed onto the recompile list. -/
def applyChange (doc : List String) (tikzPicture : TikzPic) (change : Change) :
    ChangeOutcome :=
  let lineDelta := lineDeltaOf change
  if tikzPicture.range.stop.isBefore change.range.start then
    .kept tikzPicture false
  else if tikzPicture.range.start.isAfter change.range.stop then
    .kept { tikzPicture with
      range := mkRng (tikzPicture.range.start.translate lineDelta 0)
        (tikzPicture.range.stop.translate lineDelta 0) } false
  else if change.range.stop.isAfter tikzPicture.range.start &&
      decide (change.range.stop.line - lineDelta < tikzPicture.range.start.line) then
    .removed
  else
    .kept (processModificationToTikzPicture doc tikzPicture change lineDelta) true

/-- The PDF target URI key derived from a fragment's temp file:
`tempFile.replace(/\.tex$/, '.pdf').toLocaleUpperCase()`. -/
def pdfTarget (tempFile : String) : String :=
  (if tempFile.endsWith ".tex" then
    String.mk (tempFile.data.take (tempFile.data.length - 4)) ++ ".pdf"
  else tempFile).toUpper

/-- The viewer-gate test of `onFileChange`: the client set for the target is
absent, or present but empty.  `getClientSet` is the external viewer
collaborator, modelled as the number of clients per target if a set exists. -/
def viewerGone (getClientSet : String → Option Nat) (uri : String) : Bool :=
  (getClientSet uri).isNone || getClientSet uri == some 0

/-- `Array.prototype.indexOf`: first index of the element, or -1.  Object
identity is realised by the fragment's `tempFile`, which is unique per
allocation. -/
def indexOfKey (arr : List TikzPic) (key : String) : Int :=
  match arr.findIdx? (fun y => y.tempFile == key) with
  | some i => (i : Int)
  | none => -1

/-- `arr.splice(i, 1)` restricted to its use here: a negative index counts
from the end; an index past the end removes nothing. -/
def spliceRemoveOne (arr : List TikzPic) (i : Int) : List TikzPic :=
  let s := if i < 0 then max ((arr.length : Int) + i) 0 else i
  if s < (arr.length : Int) then arr.eraseIdx s.toNat else arr

/-- Write an updated fragment back through its object reference: every stored
fragment with the same identity key takes the new value. -/
def setByKey (arr : List TikzPic) (key : String) (x : TikzPic) : List TikzPic :=
  arr.map (fun y => if y.tempFile == key then x else y)

/-- State threaded through the edit-processing pass: the live `tikzPictures`
array, the deduplicated recompile list, and the fragments whose artifacts
were released. -/
structure PassState where
  arr : List TikzPic
  toUpdate : List TikzPic
  cleaned : List TikzPic
deriving DecidableEq

/-- One iteration of the inner change loop for the current fragment `st.1`:
the local variable is mutated and written back through its reference; the
deletion branch splices the array and releases the artifact without leaving
the loop, exactly as the source does. -/
def changeStep (doc : List String) (st : TikzPic × PassState) (change : Change) :
    TikzPic × PassState :=
  let x := st.1
  let ps := st.2
  let lineDelta := lineDeltaOf change
  if x.range.stop.isBefore change.range.start then (x, ps)
  else if x.range.start.isAfter change.range.stop then
    let x1 := { x with
      range := mkRng (x.range.start.translate lineDelta 0)
        (x.range.stop.translate lineDelta 0) }
    (x1, { ps with arr := setByKey ps.arr x.tempFile x1 })
  else if change.range.stop.isAfter x.range.start &&
      decide (change.range.stop.line - lineDelta < x.range.start.line) then
    (x, { ps with
          arr := spliceRemoveOne ps.arr (indexOfKey ps.arr x.tempFile),
          cleaned := ps.cleaned ++ [x] })
  else
    let x1 := processModificationToTikzPicture doc x change lineDelta
    let ps1 := { ps with arr := setByKey ps.arr x.tempFile x1 }
    if ps1.toUpdate.any (fun y => y.tempFile == x1.tempFile) then (x1, ps1)
    else (x1, { ps1 with toUpdate := ps1.toUpdate ++ [x1] })

/-- The inner `for (const change of changes)` loop for one fragment. -/
def processChangesForFrag (doc : List String) (changes : List Change)
    (x : TikzPic) (ps : PassState) : PassState :=
  (changes.foldl (changeStep doc) (x, ps)).2

/-- The outer `for (const tikzPicture of tikzPictures)` loop of
`onFileChange`.  The host iterator walks the live array by an index that
advances even when the current element was spliced out, which is what `i + 1`
models.  Written with fuel; the iteration count never exceeds the initial
array length because the array never grows. -/
def passLoop (getClientSet : String → Option Nat) (doc : List String)
    (changes : List Change) : Nat → Nat → PassState → PassState
  | 0, _, ps => ps
  | fuel + 1, i, ps =>
    if h : i < ps.arr.length then
      let x := ps.arr.get ⟨i, h⟩
      if viewerGone getClientSet (pdfTarget x.tempFile) then
        passLoop getClientSet doc changes fuel (i + 1)
          { ps with
            arr := spliceRemoveOne ps.arr (indexOfKey ps.arr x.tempFile),
            cleaned := ps.cleaned ++ [x] }
      else
        passLoop getClientSet doc changes fuel (i + 1)
          (processChangesForFrag doc changes x ps)
    else ps

/-- The edit-processing pass of `onFileChange` past the debounce and timeout
guards: viewer-gated garbage collection and per-change fragment updates. -/
def onFileChangePass (getClientSet : String → Option Nat) (doc : List String)
    (changes : List Change) (pics : List TikzPic) : PassState :=
  passLoop getClientSet doc changes (pics.length + 1) 0 ⟨pics, [], []⟩

/-- What the guard section at the top of `onFileChange` decides to do with an
arriving batch. -/
inductive GuardDecision
  | disabled
  | deferredReschedule
  | deferredDrop
  | staleDrop
  | process
deriving DecidableEq

/-- The guard section of `onFileChange` (source lines 73-91), with the three
successive clock reads passed in explicitly: `t1` is the read in the debounce
comparison, `t2` the read stored into `lastChange`, `t3` the read in the
staleness comparison.  Returns the decision and the stored `lastChange`.
The source stores `t2` into `lastChange` at line 87 and only then compares
`t3 - lastChange` against the timeout at line 89. -/
def onFileChangeGuard (delay timeoutCfg : Int) (collectionExists : Bool)
    (lastChange : Int) (t1 t2 t3 : Int) (waitedDelay : Bool) :
    GuardDecision × Int :=
  if delay = 0 ∨ collectionExists = false then (.disabled, lastChange)
  else if t1 - lastChange < delay then
    if waitedDelay = false then (.deferredReschedule, t2)
    else (.deferredDrop, lastChange)
  else
    if t3 - t2 > timeoutCfg then (.staleDrop, t2) else (.process, t2)

/-- Result of `checkPreamble`. -/
inductive PreambleStatus
  | stable
  | updated
deriving DecidableEq

instance : DecidableEq (Except String PreambleStatus)
  | .error e, .error f =>
    if h : e = f then isTrue (congrArg Except.error h)
    else isFalse fun hc => h (Except.error.inj hc)
  | .error _, .ok _ => isFalse fun hc => Except.noConfusion hc
  | .ok _, .error _ => isFalse fun hc => Except.noConfusion hc
  | .ok x, .ok y =>
    if h : x = y then isTrue (congrArg Except.ok h)
    else isFalse fun hc => h (Except.ok.inj hc)

/-- Observable outcome of one `checkPreamble` call: the returned status (or a
propagated precompile rejection), the session state afterwards, the preamble
files written and precompiled, and the fragments recompiled. -/
structure CheckPreambleResult where
  status : Except String PreambleStatus
  collection : TikzCollection
  precompiled : List (String × String)
  recompiled : List TikzPic
deriving DecidableEq

/-- `TikzPictureView.checkPreamble`, with the freshly generated preamble and
the outcome of the external precompile process as parameters.  If the
generated preamble differs from the cached one, the cache is overwritten, the
preamble file is written and precompiled, and — only if the precompile
promise resolved — every tracked fragment is recompiled and `updated` is
returned; a precompile rejection propagates through the `await` as an error
before any recompilation.  Otherwise `stable` is returned with no effects. -/
def checkPreamble (c : TikzCollection) (generatedPreamble : String)
    (precompileOutcome : Except String Unit) : CheckPreambleResult :=
  if c.preamble ≠ generatedPreamble then
    let c1 := { c with preamble := generatedPreamble }
    let written := [(c.tempDir ++ "/preamble.tex", c1.preamble)]
    match precompileOutcome with
    | .error e => ⟨.error e, c1, written, []⟩
    | .ok _ => ⟨.ok .updated, c1, written, c1.tikzPictures⟩
  else ⟨.ok .stable, c, [], []⟩

/-- The linear scan at the top of `getTikzEntry`: first stored fragment whose
range `isEqual` the requested one. -/
def findEntry : List TikzPic → Rng → Option TikzPic
  | [], _ => none
  | p :: rest, r => if p.range.isEqual r then some p else findEntry rest r

/-- `TikzPictureView.getTikzEntry`: return the stored fragment with an equal
range if one exists; otherwise allocate a temp file name from the clock and
push a new fragment.  Returns the resolved fragment and the collection
afterwards. -/
def getTikzEntry (c : TikzCollection) (range : Rng) (content : String)
    (now : Int) : TikzPic × TikzCollection :=
  match findEntry c.tikzPictures range with
  | some p => (p, c)
  | none =>
    let tempFile := c.tempDir ++ "/tikzpicture-" ++ toString (now % 100000000) ++ ".tex"
    let p : TikzPic := ⟨range, content, tempFile, now⟩
    (p, { c with tikzPictures := c.tikzPictures ++ [p] })

/-- A sample tracked fragment used by concrete instantiations. -/
def samplePic : TikzPic :=
  ⟨⟨⟨0, 0⟩, ⟨1, 17⟩⟩, "\\begin{tikzpicture}\n\\end{tikzpicture}",
    "tmp/tikzpicture-1.tex", 0⟩

/-- A sample session used by concrete instantiations. -/
def sampleCollection : TikzCollection := ⟨"doc.tex", "tmp", [samplePic], "P", 0⟩

/-- C2 sample fragment: lines 5-6. -/
def c2pic : TikzPic := ⟨⟨⟨5, 0⟩, ⟨6, 3⟩⟩, "body", "tmp/c2.tex", 0⟩

/-- C2 sample edit: replaces one line span with three lines (line delta 1),
entirely before `c2pic`. -/
def c2change : Change := ⟨⟨⟨1, 0⟩, ⟨2, 0⟩⟩, "a\nb\nc"⟩

/-- C3 post-edit document: an `x` was typed at position (1,5), exactly the
tracked fragment's end position. -/
def c3doc : List String := ["\\begin{tikzpicture}", "\\end{xtikzpicture}"]

/-- C3 fragment whose recorded end is exactly where the edit begins. -/
def c3pic : TikzPic :=
  ⟨⟨⟨0, 0⟩, ⟨1, 5⟩⟩, "\\begin{tikzpicture}\n\\end\x7b", "tmp/c3.tex", 7⟩

/-- C3 edit: insertion of `x` at (1,5), i.e. beginning exactly at the
fragment's end. -/
def c3change : Change := ⟨⟨⟨1, 5⟩, ⟨1, 5⟩⟩, "x"⟩

/-- C4 sample fragments: two consecutive tracked fragments. -/
def c4picA : TikzPic := ⟨⟨⟨0, 0⟩, ⟨1, 17⟩⟩, "A", "tmp/a.tex", 0⟩

def c4picB : TikzPic := ⟨⟨⟨3, 0⟩, ⟨4, 17⟩⟩, "B", "tmp/b.tex", 0⟩

/-- C4 sample edit, located after both fragments. -/
def c4change : Change := ⟨⟨⟨10, 0⟩, ⟨10, 0⟩⟩, "z"⟩

/-- C6 post-edit document: the begin marker on the fragment's recorded start
line was destroyed by the edit; line 1 carries a begin marker only inside a
line comment. -/
def c6doc : List String :=
  ["xx", "a % \\begin{tikzpicture}", "b", "\\end{tikzpicture}"]

/-- C6 fragment spanning lines 0-3. -/
def c6pic : TikzPic := ⟨⟨⟨0, 0⟩, ⟨3, 17⟩⟩, "", "tmp/c6.tex", 0⟩

/-- C6 edit replacing the start of line 0. -/
def c6change : Change := ⟨⟨⟨0, 0⟩, ⟨0, 5⟩⟩, "xx"⟩

/-- C7 post-edit document containing no end marker anywhere in the searched
window. -/
def c7doc : List String := ["\\begin{tikzpicture}", "q", "cc", "dd"]

/-- C7 fragment whose end line is reached by the edit. -/
def c7pic : TikzPic := ⟨⟨⟨0, 0⟩, ⟨2, 2⟩⟩, "", "tmp/c7.tex", 0⟩

/-- C7 edit: lines 1-2 replaced by the single line `q` (line delta -1). -/
def c7change : Change := ⟨⟨⟨1, 0⟩, ⟨2, 2⟩⟩, "q"⟩

/-! Helper lemmas about the search loop and the entry scan. -/

lemma isEqual_self (r : Rng) : r.isEqual r = true := by
  simp [Rng.isEqual]

lemma markerSearch_none (find : String → Option (Nat × Nat)) (doc : List String)
    (bound : Int) : ∀ (fuel : Nat) (lineNo : Int), lineNo ≤ bound →
    (∀ ℓ : Int, lineNo + 1 ≤ ℓ → ℓ ≤ bound + 1 → find (lineAt doc ℓ) = none) →
    markerSearch find doc bound fuel lineNo = none := by
  intro fuel
  induction fuel with
  | zero => intro lineNo h1 h2; rfl
  | succ n ih =>
    intro lineNo h1 h2
    have hm : find (lineAt doc (lineNo + 1)) = none := h2 (lineNo + 1) le_rfl (by omega)
    rw [markerSearch, hm]
    by_cases hle : lineNo + 1 ≤ bound
    · rw [if_pos hle]
      exact ih (lineNo + 1) hle (fun ℓ ha hb => h2 ℓ (by omega) hb)
    · rw [if_neg hle]

lemma markerSearch_found (find : String → Option (Nat × Nat)) (doc : List String)
    (bound : Int) : ∀ (fuel : Nat) (lineNo tgt : Int) (i L : Nat),
    lineNo + 1 ≤ tgt → tgt ≤ bound + 1 →
    find (lineAt doc tgt) = some (i, L) →
    (∀ ℓ : Int, lineNo + 1 ≤ ℓ → ℓ < tgt → find (lineAt doc ℓ) = none) →
    (tgt - lineNo).toNat ≤ fuel →
    markerSearch find doc bound fuel lineNo = some (tgt, i, L) := by
  intro fuel
  induction fuel with
  | zero => intro lineNo tgt i L h1 h2 h3 h4 h5; omega
  | succ n ih =>
    intro lineNo tgt i L h1 h2 h3 h4 h5
    by_cases heq : lineNo + 1 = tgt
    · rw [markerSearch, heq, h3]
    · have hlt : lineNo + 1 < tgt := by omega
      have hm : find (lineAt doc (lineNo + 1)) = none := h4 _ le_rfl hlt
      rw [markerSearch, hm, if_pos (by omega : lineNo + 1 ≤ bound)]
      exact ih (lineNo + 1) tgt i L (by omega) h2 h3
        (fun ℓ ha hb => h4 ℓ (by omega) hb) (by omega)

lemma findEntry_append_none (l : List TikzPic) (r : Rng) (p : TikzPic)
    (h : findEntry l r = none) :
    findEntry (l ++ [p]) r = if p.range.isEqual r then some p else none := by
  induction l with
  | nil => rfl
  | cons q t ih =>
    rw [findEntry] at h
    by_cases hq : q.range.isEqual r = true
    · rw [if_pos hq] at h; exact absurd h (by simp)
    · rw [if_neg hq] at h
      rw [List.cons_append, findEntry, if_neg hq]
      exact ih h

lemma findEntry_mem (r : Rng) : ∀ (l : List TikzPic) (q : TikzPic),
    findEntry l r = some q → q ∈ l ∧ q.range.isEqual r = true := by
  intro l
  induction l with
  | nil => intro q h; exact absurd h (by simp [findEntry])
  | cons p t ih =>
    intro q h
    rw [findEntry] at h
    by_cases hp : p.range.isEqual r = true
    · rw [if_pos hp] at h
      obtain rfl : p = q := by injection h
      exact ⟨List.mem_cons_self _ _, hp⟩
    · rw [if_neg hp] at h
      obtain ⟨hm, he⟩ := ih q h
      exact ⟨List.mem_cons_of_mem _ hm, he⟩

lemma findEntry_isSome_of_match (r : Rng) : ∀ (l : List TikzPic),
    (∃ p ∈ l, p.range.isEqual r = true) → ∃ q, findEntry l r = some q := by
  intro l
  induction l with
  | nil => intro h; obtain ⟨p, hp, _⟩ := h; exact absurd hp (by simp)
  | cons p t ih =>
    intro h
    by_cases hp : p.range.isEqual r = true
    · exact ⟨p, by rw [findEntry, if_pos hp]⟩
    · obtain ⟨q, hq, he⟩ := h
      rcases List.mem_cons.mp hq with rfl | hmem
      · exact absurd he hp
      · obtain ⟨w, hw⟩ := ih ⟨q, hmem, he⟩
        exact ⟨w, by rw [findEntry, if_neg hp]; exact hw⟩

lemma startLocationOf_found (doc : List String) (x : TikzPic) (ch : Change)
    (tgt : Int) (i L : Nat)
    (hinv : x.range.start.line ≤ x.range.stop.line)
    (hcond : ch.range.start.line ≤ x.range.start.line)
    (hsame : findBegin (stripComments (lineAt doc x.range.start.line) '%') = none)
    (h1 : ch.range.start.line ≤ tgt) (h2 : tgt ≤ x.range.stop.line + 1)
    (hmatch : findBegin (lineAt doc tgt) = some (i, L))
    (hbefore : ∀ ℓ : Int, ch.range.start.line ≤ ℓ → ℓ < tgt →
      findBegin (lineAt doc ℓ) = none) :
    startLocationOf doc x ch = some ⟨tgt, (i : Int)⟩ := by
  have hs := markerSearch_found (fun s => findBegin s) doc x.range.stop.line
    (fuelFor (ch.range.start.line - 1) x.range.stop.line)
    (ch.range.start.line - 1) tgt i L (by omega) (by omega) hmatch
    (fun ℓ ha hb => hbefore ℓ (by omega) hb)
    (by simp only [fuelFor]; omega)
  simp only [startLocationOf, if_pos hcond, hsame, hs]

lemma startLocationOf_none (doc : List String) (x : TikzPic) (ch : Change)
    (h : x.range.start.line < ch.range.start.line ∨
      (findBegin (stripComments (lineAt doc x.range.start.line) '%') = none ∧
        x.range.start.line ≤ x.range.stop.line ∧
        ∀ ℓ : Int, ch.range.start.line ≤ ℓ → ℓ ≤ x.range.stop.line + 1 →
          findBegin (lineAt doc ℓ) = none)) :
    startLocationOf doc x ch = none := by
  rcases h with h | ⟨hsame, hinv, hforward⟩
  · rw [startLocationOf, if_neg (by omega)]
  · by_cases hcond : ch.range.start.line ≤ x.range.start.line
    · have hs := markerSearch_none (fun s => findBegin s) doc x.range.stop.line
        (fuelFor (ch.range.start.line - 1) x.range.stop.line)
        (ch.range.start.line - 1) (by omega)
        (fun ℓ ha hb => hforward ℓ (by omega) hb)
      simp only [startLocationOf, if_pos hcond, hsame, hs]
    · rw [startLocationOf, if_neg hcond]

lemma endLocationOf_none (doc : List String) (x : TikzPic) (ch : Change)
    (h : ch.range.stop.line < x.range.stop.line ∨
      (x.range.start.line ≤ x.range.stop.line ∧
        x.range.stop.line ≤ ch.range.stop.line ∧
        ∀ ℓ : Int, x.range.start.line ≤ ℓ → ℓ ≤ ch.range.stop.line + 1 →
          findEnd (stripComments (lineAt doc ℓ) '%') = none)) :
    endLocationOf doc x ch = none := by
  rcases h with h | ⟨hinv, hle, hmiss⟩
  · rw [endLocationOf, if_neg (by omega)]
  · have hcond : ch.range.stop.line ≥ x.range.stop.line := hle
    have hs := markerSearch_none (fun s => findEnd (stripComments s '%')) doc
      ch.range.stop.line (fuelFor (x.range.start.line - 1) ch.range.stop.line)
      (x.range.start.line - 1) (by omega) (fun ℓ ha hb => hmiss ℓ (by omega) hb)
    simp only [endLocationOf, if_pos hcond, hs]

/-! Claim theorems. -/

/-- C1.  `checkPreamble` returns `stable` with no side effects — session
state unchanged, nothing written or precompiled, zero recompilations —
exactly when the freshly generated preamble is string-equal to the cached
`preamble`; otherwise (with the precompile step resolving) it overwrites the
cached preamble with the candidate, persists it to the session's preamble
file, recompiles exactly the session's tracked fragments (each once), and
returns `updated`. -/
theorem checkPreamble_cache (c : TikzCollection) (gen : String)
    (pre : Except String Unit) :
    ((checkPreamble c gen pre).status = .ok .stable ↔ gen = c.preamble) ∧
    (gen = c.preamble → checkPreamble c gen pre = ⟨.ok .stable, c, [], []⟩) ∧
    (gen ≠ c.preamble → checkPreamble c gen (.ok ()) =
      ⟨.ok .updated, { c with preamble := gen },
        [(c.tempDir ++ "/preamble.tex", gen)], c.tikzPictures⟩) := by
  by_cases h : c.preamble = gen
  · refine ⟨?_, fun _ => ?_, fun hn => absurd h.symm hn⟩
    · rw [checkPreamble, if_neg (by simp [h])]
      simp [h]
    · rw [checkPreamble, if_neg (by simp [h])]
  · have hne : c.preamble ≠ gen := h
    refine ⟨?_, fun he => absurd he.symm h, fun _ => ?_⟩
    · cases pre with
      | ok u => rw [checkPreamble, if_pos hne]; simp; exact fun he => h he.symm
      | error e => rw [checkPreamble, if_pos hne]; simp; exact fun he => h he.symm
    · rw [checkPreamble, if_pos hne]

/-- C1 witness: at a concrete session, a differing candidate updates and a
matching candidate is stable. -/
theorem checkPreamble_cache_w :
    checkPreamble sampleCollection "Q" (.ok ()) =
      ⟨.ok .updated, { sampleCollection with preamble := "Q" },
        [(sampleCollection.tempDir ++ "/preamble.tex", "Q")],
        sampleCollection.tikzPictures⟩ ∧
    checkPreamble sampleCollection "P" (.ok ()) =
      ⟨.ok .stable, sampleCollection, [], []⟩ :=
  ⟨(checkPreamble_cache sampleCollection "Q" (.ok ())).2.2 (by decide),
   (checkPreamble_cache sampleCollection "P" (.ok ())).2.1 (by decide)⟩

/-- C8.  When the preamble changed and the precompile process fails, the
failure is surfaced to the caller of the refresh as an error (the returned
status is exactly that error, not a silent `updated`), and no fragment is
recompiled in that cycle. -/
theorem checkPreamble_precompile_error (c : TikzCollection) (gen e : String)
    (h : gen ≠ c.preamble) :
    (checkPreamble c gen (.error e)).status = .error e ∧
    (checkPreamble c gen (.error e)).recompiled = [] := by
  have hne : c.preamble ≠ gen := fun hc => h hc.symm
  rw [checkPreamble, if_pos hne]
  exact ⟨rfl, rfl⟩

/-- C8 witness: a concrete failing precompile propagates its error and
recompiles nothing. -/
theorem checkPreamble_precompile_error_w :
    (checkPreamble sampleCollection "Q" (.error "spawn failed")).status =
      .error "spawn failed" ∧
    (checkPreamble sampleCollection "Q" (.error "spawn failed")).recompiled = [] :=
  checkPreamble_precompile_error sampleCollection "Q" "spawn failed" (by decide)

/-- C9.  Two `view` requests with equal ranges on the same session resolve to
the same fragment entity (hence the same temp-file artifact handle): the
second `getTikzEntry` call returns exactly what the first returned, and
leaves the collection exactly as the first call left it — no duplicate is
created. -/
theorem getTikzEntry_identity_reuse (c : TikzCollection) (r : Rng)
    (s1 s2 : String) (t1 t2 : Int) :
    (getTikzEntry ((getTikzEntry c r s1 t1).2) r s2 t2).1 =
      (getTikzEntry c r s1 t1).1 ∧
    (getTikzEntry ((getTikzEntry c r s1 t1).2) r s2 t2).2 =
      (getTikzEntry c r s1 t1).2 := by
  cases h : findEntry c.tikzPictures r with
  | some p => simp [getTikzEntry, h]
  | none =>
    have h2 := findEntry_append_none c.tikzPictures r
      ⟨r, s1, c.tempDir ++ "/tikzpicture-" ++ toString (t1 % 100000000) ++ ".tex", t1⟩ h
    rw [show (⟨r, s1, c.tempDir ++ "/tikzpicture-" ++ toString (t1 % 100000000) ++
      ".tex", t1⟩ : TikzPic).range = r from rfl, isEqual_self, if_pos rfl] at h2
    simp [getTikzEntry, h, h2]

/-- C10.  When `getTikzEntry` is called with a range matching an existing
tracked fragment, the collection is left entirely unchanged, and the returned
fragment is one already stored (so it keeps its stored content, temp file and
timestamp, and the freshly read content and clock passed in are discarded). -/
theorem getTikzEntry_match_frame (c : TikzCollection) (r : Rng) (s : String)
    (t : Int) (h : ∃ p ∈ c.tikzPictures, p.range.isEqual r = true) :
    (getTikzEntry c r s t).2 = c ∧
    (getTikzEntry c r s t).1 ∈ c.tikzPictures ∧
    (getTikzEntry c r s t).1.range.isEqual r = true := by
  obtain ⟨q, hq⟩ := findEntry_isSome_of_match r c.tikzPictures h
  obtain ⟨hmem, he⟩ := findEntry_mem r c.tikzPictures q hq
  simp [getTikzEntry, hq, hmem, he]

/-- C10 witness: at a concrete session with a matching stored fragment, the
fresh content is discarded and nothing changes. -/
theorem getTikzEntry_match_frame_w :
    (getTikzEntry sampleCollection ⟨⟨0, 0⟩, ⟨1, 17⟩⟩ "fresh" 99).2 =
      sampleCollection ∧
    (getTikzEntry sampleCollection ⟨⟨0, 0⟩, ⟨1, 17⟩⟩ "fresh" 99).1 ∈
      sampleCollection.tikzPictures ∧
    (getTikzEntry sampleCollection ⟨⟨0, 0⟩, ⟨1, 17⟩⟩ "fresh" 99).1.range.isEqual
      ⟨⟨0, 0⟩, ⟨1, 17⟩⟩ = true :=
  getTikzEntry_match_frame sampleCollection ⟨⟨0, 0⟩, ⟨1, 17⟩⟩ "fresh" 99
    ⟨samplePic, by decide, by decide⟩

/-- C2.  For well-formed ranges, an edit whose replaced range lies entirely
before the fragment (edit end strictly before fragment start) translates both
fragment bounds by exactly the edit's line delta — the newline count of the
replacement minus the line span of the replaced range — keeping the
characters, the content, and everything else unchanged, and queues no
recompilation. -/
theorem applyChange_before (doc : List String) (x : TikzPic) (ch : Change)
    (hx : Pos.le x.range.start x.range.stop)
    (hc : Pos.le ch.range.start ch.range.stop)
    (hbefore : Pos.lt ch.range.stop x.range.start) :
    applyChange doc x ch = .kept { x with range :=
      ⟨⟨x.range.start.line + lineDeltaOf ch, x.range.start.character⟩,
       ⟨x.range.stop.line + lineDeltaOf ch, x.range.stop.character⟩⟩ } false := by
  have h1 : x.range.stop.isBefore ch.range.start = false := by
    simp only [Pos.isBefore, decide_eq_false_iff_not, Pos.lt]
    simp only [Pos.le, Pos.lt] at hx hc hbefore
    omega
  have h2 : x.range.start.isAfter ch.range.stop = true := by
    simp only [Pos.isAfter, decide_eq_true_eq]
    exact hbefore
  have h3 : ¬ Pos.lt ⟨x.range.stop.line + lineDeltaOf ch, x.range.stop.character⟩
      ⟨x.range.start.line + lineDeltaOf ch, x.range.start.character⟩ := by
    simp only [Pos.lt]
    simp only [Pos.le, Pos.lt] at hx
    omega
  simp [applyChange, h1, h2, mkRng, Pos.translate, h3]

/-- C2 witness: a three-line replacement of a one-line span before a
fragment on lines 5-6 shifts it to lines 6-7 with content untouched. -/
theorem applyChange_before_w :
    applyChange [] c2pic c2change =
      .kept { c2pic with range := ⟨⟨6, 0⟩, ⟨7, 3⟩⟩ } false := by
  rw [applyChange_before [] c2pic c2change (by decide) (by decide) (by decide)]
  rfl

/-- C3 counterexample: an edit beginning exactly at the fragment's end
position is not treated as entirely after the fragment — the code's guard is
a strict `isBefore` — so the fragment is re-anchored: its end moves from
(1,5) to (1,18), its content is re-read, and it is queued for recompilation,
contradicting the claim that it is left completely unchanged. -/
theorem applyChange_at_stop_counterexample :
    c3change.range.start = c3pic.range.stop ∧
    applyChange c3doc c3pic c3change =
      .kept ⟨⟨⟨0, 0⟩, ⟨1, 18⟩⟩, "\\begin{tikzpicture}\n\\end{xtikzpicture}",
        "tmp/c3.tex", 7⟩ true := by
  constructor
  · decide
  · decide

/-- C3 (amended).  An edit whose replaced range lies strictly after the
fragment — its start strictly after the fragment's end, not merely at it —
leaves the fragment completely unchanged: same bounds, same content, same
activity timestamp, and no recompilation queued. -/
theorem applyChange_strictly_after (doc : List String) (x : TikzPic)
    (ch : Change) (h : Pos.lt x.range.stop ch.range.start) :
    applyChange doc x ch = .kept x false := by
  have h1 : x.range.stop.isBefore ch.range.start = true := by
    simp only [Pos.isBefore, decide_eq_true_eq]
    exact h
  simp [applyChange, h1]

/-- C3 witness: an edit on line 2, strictly after the fragment ending at
(1,5), leaves it untouched. -/
theorem applyChange_strictly_after_w :
    applyChange c3doc c3pic ⟨⟨⟨2, 0⟩, ⟨2, 1⟩⟩, ""⟩ = .kept c3pic false :=
  applyChange_strictly_after c3doc c3pic ⟨⟨⟨2, 0⟩, ⟨2, 1⟩⟩, ""⟩ (by decide)

/-- C4 (code bug witness).  With two consecutive viewerless fragments, the
edit-processing pass removes only the first: splicing the live array inside
the `for...of` loop advances the iterator past the element that slid into the
removed slot, so the second viewerless fragment is neither removed from
tracking nor released — its pass leaves it tracked with no artifact
cleanup. -/
theorem viewerless_gc_skips_second :
    onFileChangePass (fun _ => none) [] [c4change] [c4picA, c4picB] =
      ⟨[c4picB], [], [c4picA]⟩ := by
  decide

/-- C5 (code bug witness).  A batch arriving 1000 ms after the last recorded
activity with a 100 ms timeout is processed, not dropped: the source
overwrites `lastChange` with the current clock immediately before comparing
the current clock against it, so the staleness test compares the clock with
itself and can never exceed a non-negative timeout. -/
theorem stale_batch_still_processed :
    onFileChangeGuard 10 100 true 0 1000 1000 1000 false = (.process, 1000) ∧
    1000 - (0 : Int) > 100 := by
  decide

/-- C6 counterexample: during start re-anchoring the forward search matches
candidate lines on their raw text, not after stripping line comments — here
the accepted line 1 carries a begin marker only inside a `%` comment, its
comment-stripped text has no match at all, yet it becomes the new start. -/
theorem start_search_raw_text_counterexample :
    findBegin (stripComments (lineAt c6doc 1) '%') = none ∧
    findBegin (lineAt c6doc 1) = some (4, 19) ∧
    (processModificationToTikzPicture c6doc c6pic c6change 0).range.start =
      ⟨1, 4⟩ := by
  refine ⟨by decide, by decide, by decide⟩

/-- C6 (amended).  When the edit starts at or before the fragment's start and
the begin marker is gone from the recorded start line (checked on
comment-stripped text), the new start is the leftmost match of the opening
marker pattern on the first matching line at or after the edit's start line —
each candidate line matched on its raw text, without stripping comments — and
a match is accepted up to one line past the fragment's prior end line. -/
theorem processModification_start_search (doc : List String) (x : TikzPic)
    (ch : Change) (d : Int) (tgt : Int) (i L : Nat)
    (hinv : x.range.start.line ≤ x.range.stop.line)
    (hcond : ch.range.start.line ≤ x.range.start.line)
    (hsame : findBegin (stripComments (lineAt doc x.range.start.line) '%') = none)
    (h1 : ch.range.start.line ≤ tgt) (h2 : tgt ≤ x.range.stop.line + 1)
    (hmatch : findBegin (lineAt doc tgt) = some (i, L))
    (hbefore : ∀ ℓ : Int, ch.range.start.line ≤ ℓ → ℓ < tgt →
      findBegin (lineAt doc ℓ) = none)
    (hendcase : ch.range.stop.line < x.range.stop.line)
    (hswap : ¬ Pos.lt (x.range.stop.translate d 0) ⟨tgt, (i : Int)⟩) :
    (processModificationToTikzPicture doc x ch d).range =
      ⟨⟨tgt, (i : Int)⟩, x.range.stop.translate d 0⟩ := by
  have hs := startLocationOf_found doc x ch tgt i L hinv hcond hsame h1 h2
    hmatch hbefore
  have he := endLocationOf_none doc x ch (Or.inl hendcase)
  simp only [processModificationToTikzPicture, hs, he, Option.getD_some,
    Option.getD_none, mkRng, if_neg hswap]

/-- C6 witness: at the concrete input the search lands on line 1 (raw-text
match at column 4) and the untouched end is translated by delta 0. -/
theorem processModification_start_search_w :
    (processModificationToTikzPicture c6doc c6pic c6change 0).range =
      ⟨⟨1, 4⟩, ⟨3, 17⟩⟩ := by
  have h := processModification_start_search c6doc c6pic c6change 0 1 4 19
    (by decide) (by decide) (by decide) (by decide) (by decide) (by decide)
    (fun ℓ ha hb => by
      have ha2 : (0 : Int) ≤ ℓ := by simpa [c6change] using ha
      have : ℓ = 0 := by omega
      subst this
      decide)
    (by decide) (by decide)
  rw [h]
  decide

/-- C7 counterexample: the end-marker search is performed (the edit reaches
the fragment's end line) and misses on every line it reads, yet the previous
end boundary is not retained: it is translated by the edit's line delta,
moving from (2,2) to (1,2). -/
theorem end_miss_translates_counterexample :
    findEnd (stripComments (lineAt c7doc 0) '%') = none ∧
    findEnd (stripComments (lineAt c7doc 1) '%') = none ∧
    findEnd (stripComments (lineAt c7doc 2) '%') = none ∧
    findEnd (stripComments (lineAt c7doc 3) '%') = none ∧
    c7pic.range.stop.line ≤ c7change.range.stop.line ∧
    (processModificationToTikzPicture c7doc c7pic c7change (-1)).range.stop =
      ⟨1, 2⟩ ∧
    c7pic.range.stop = ⟨2, 2⟩ := by
  refine ⟨by decide, by decide, by decide, by decide, by decide, by decide,
    by decide⟩

/-- C7 (amended).  When the marker searches miss — the start search is either
not performed or finds no begin marker, and the performed end search finds no
end marker on any line it reads — the fragment remains tracked and keeps its
start boundary unchanged, while the end boundary is translated by the edit's
line delta rather than retained (retained only when the delta is zero). -/
theorem processModification_miss_boundaries (doc : List String) (x : TikzPic)
    (ch : Change) (d : Int)
    (hinv : x.range.start.line ≤ x.range.stop.line)
    (hstart : x.range.start.line < ch.range.start.line ∨
      (findBegin (stripComments (lineAt doc x.range.start.line) '%') = none ∧
        ∀ ℓ : Int, ch.range.start.line ≤ ℓ → ℓ ≤ x.range.stop.line + 1 →
          findBegin (lineAt doc ℓ) = none))
    (hendp : x.range.stop.line ≤ ch.range.stop.line)
    (hendmiss : ∀ ℓ : Int, x.range.start.line ≤ ℓ → ℓ ≤ ch.range.stop.line + 1 →
      findEnd (stripComments (lineAt doc ℓ) '%') = none)
    (hswap : ¬ Pos.lt (x.range.stop.translate d 0) x.range.start) :
    (processModificationToTikzPicture doc x ch d).range =
      ⟨x.range.start, x.range.stop.translate d 0⟩ := by
  have hs := startLocationOf_none doc x ch (by
    rcases hstart with h | ⟨a, b⟩
    · exact Or.inl h
    · exact Or.inr ⟨a, hinv, b⟩)
  have he := endLocationOf_none doc x ch (Or.inr ⟨hinv, hendp, hendmiss⟩)
  simp only [processModificationToTikzPicture, hs, he, Option.getD_none,
    mkRng, if_neg hswap]

/-- C7 witness: at the concrete input both searches miss; the start (0,0) is
kept and the end moves from (2,2) to (1,2) under line delta -1. -/
theorem processModification_miss_boundaries_w :
    (processModificationToTikzPicture c7doc c7pic c7change (-1)).range =
      ⟨⟨0, 0⟩, ⟨1, 2⟩⟩ := by
  have h := processModification_miss_boundaries c7doc c7pic c7change (-1)
    (by decide) (Or.inl (by decide)) (by decide)
    (fun ℓ ha hb => by
      have ha2 : (0 : Int) ≤ ℓ := by simpa [c7pic] using ha
      have hb2 : ℓ ≤ 3 := by simpa [c7change] using hb
      interval_cases ℓ <;> decide)
    (by decide)
  rw [h]
  decide

end TikzPreview
